import Mathlib

/-!
Verification development for the Office 365 audit-log collector pipeline
(rust sources: src/collector.rs, src/api_connection.rs, src/config.rs,
src/data_structures.rs).  The Rust core is shallowly embedded: channels
become explicit event lists, the coordinator loop becomes a step function
folded over those lists, and usize arithmetic is made explicit
(release-mode wrapping for plain `+= 1` / `-= 1`, truncated subtraction for
`saturating_sub`).
-/

namespace OALC

/-- usize modulus (64-bit target). -/
def USIZE : Nat := 2 ^ 64

/-- Release-mode wrapping `x + 1` on usize (wraps to 0 at `USIZE - 1`);
agrees with `(x + 1) % USIZE` on every representable usize value. -/
def usizeAdd1 (x : Nat) : Nat := if x = USIZE - 1 then 0 else x + 1

/-- Release-mode wrapping `x - 1` on usize (wraps to `USIZE - 1` at zero);
agrees with `(x + (USIZE - 1)) % USIZE` on every representable usize
value. -/
def usizeSub1 (x : Nat) : Nat := if x = 0 then USIZE - 1 else x - 1

/-- Association-list lookup, modelling `HashMap::get` / `contains_key`. -/
def mapLookup {β : Type} : List (String × β) → String → Option β
  | [], _ => none
  | (k2, v) :: rest, k => if k2 = k then some v else mapLookup rest k

/-- Association-list insert-or-replace, modelling `HashMap::insert`. -/
def mapInsert {β : Type} : List (String × β) → String → β → List (String × β)
  | [], k, v => [(k, v)]
  | (k2, v2) :: rest, k, v =>
      if k2 = k then (k, v) :: rest else (k2, v2) :: mapInsert rest k v

/-- `data_structures::StatusMessage`. -/
inductive StatusMessage where
  | finishedContentBlobs
  | foundNewContentBlob
  | retrievedContentBlob
  | errorContentBlob
  | beingThrottled
deriving DecidableEq, Repr

/-- `data_structures::ContentToRetrieve`. -/
structure ContentToRetrieve where
  content_type : String
  content_id : String
  expiration : String
  url : String
deriving DecidableEq, Repr

/-- `data_structures::RunStatistics`. -/
structure RunStatistics where
  blobs_found : Nat := 0
  blobs_successful : Nat := 0
  blobs_error : Nat := 0
  blobs_retried : Nat := 0
deriving DecidableEq, Repr

/-- The part of `data_structures::RunState` plus the coordinator locals
(`rate_limit_backoff_started`, `retry_map`) used by `collector::message_loop`.
`rate_limited` models `rate_limit_backoff_started.is_some()`. -/
structure LoopState where
  awaiting_content_types : Nat
  awaiting_content_blobs : Nat
  stats : RunStatistics
  rate_limited : Bool
  retry_map : List (String × Nat)
deriving DecidableEq, Repr

/-- One observable input of a `message_loop` iteration.  Each iteration of the
Rust loop polls, in order: the backoff timer, `kill_rx`, `status_rx`,
`blob_error_rx` (page errors) and `content_error_rx` (blob-fetch errors);
an iteration in which a given poll yields nothing is modelled by simply not
emitting that event.  `idle` models an iteration in which every poll came up
empty. -/
inductive LoopEvent where
  | idle
  | backoffExpired
  | kill (b : Bool)
  | status (m : StatusMessage)
  | pageError (content_type url : String)
  | blobFetchError (c : ContentToRetrieve)
deriving DecidableEq, Repr

/-- Messages the coordinator sends while processing one event: re-enqueues
onto `blobs_tx` / `content_tx`, give-ups (logged drops), and the
`content_tx.close_channel()` call. -/
inductive LoopAction where
  | reenqueuePage (content_type url : String)
  | reenqueueBlob (c : ContentToRetrieve)
  | giveUpPage (url : String)
  | giveUpBlob (url : String)
  | closeContentChannel
deriving DecidableEq, Repr

/-- `collector::check_done`. -/
def checkDone (st : LoopState) : Bool :=
  st.awaiting_content_types == 0 && st.awaiting_content_blobs == 0

/-- One iteration body of `collector::message_loop` (lines 397-516), given the
event this iteration observes.  Returns the new state, whether the loop
`break`s, and the actions sent. -/
def messageLoopStep (retries : Nat) (st : LoopState) (e : LoopEvent) :
    LoopState × Bool × List LoopAction :=
  match e with
  | .idle => (st, false, [])
  | .backoffExpired =>
      ({ st with rate_limited := false }, false, [])
  | .kill b =>
      if b then (st, true, []) else (st, false, [])
  | .status m =>
    match m with
    | .foundNewContentBlob =>
        ({ st with
            awaiting_content_blobs := usizeAdd1 st.awaiting_content_blobs,
            stats := { st.stats with blobs_found := usizeAdd1 st.stats.blobs_found } },
         false, [])
    | .finishedContentBlobs =>
        let st' := { st with
            awaiting_content_types := st.awaiting_content_types - 1 }
        (st', checkDone st', [])
    | .retrievedContentBlob =>
        let st' := { st with
            awaiting_content_blobs := usizeSub1 st.awaiting_content_blobs,
            stats := { st.stats with
              blobs_successful := usizeAdd1 st.stats.blobs_successful } }
        if checkDone st' then (st', true, [.closeContentChannel])
        else (st', false, [])
    | .errorContentBlob =>
        let st' := { st with
            awaiting_content_blobs := usizeSub1 st.awaiting_content_blobs,
            stats := { st.stats with
              blobs_error := usizeAdd1 st.stats.blobs_error } }
        if checkDone st' then (st', true, [.closeContentChannel])
        else (st', false, [])
    | .beingThrottled =>
        if st.rate_limited then (st, false, [])
        else ({ st with rate_limited := true }, false, [])
  | .pageError content_type url =>
    match mapLookup st.retry_map url with
    | some v =>
        if v = 0 then
          ({ st with
              awaiting_content_types := usizeSub1 st.awaiting_content_types,
              stats := { st.stats with
                blobs_error := usizeAdd1 st.stats.blobs_error } },
           false, [.giveUpPage url])
        else
          let m' := if st.rate_limited then st.retry_map
                    else mapInsert st.retry_map url (v - 1)
          ({ st with
              retry_map := m',
              stats := { st.stats with
                blobs_retried := usizeAdd1 st.stats.blobs_retried } },
           false, [.reenqueuePage content_type url])
    | none =>
        ({ st with
            retry_map := mapInsert st.retry_map url (usizeSub1 retries),
            stats := { st.stats with
              blobs_retried := usizeAdd1 st.stats.blobs_retried } },
         false, [.reenqueuePage content_type url])
  | .blobFetchError c =>
    -- `state.stats.blobs_retried += 1` happens unconditionally on receipt
    -- (collector.rs line 495), before the retry-map lookup.
    let st0 := { st with
        stats := { st.stats with
          blobs_retried := usizeAdd1 st.stats.blobs_retried } }
    match mapLookup st0.retry_map c.url with
    | some v =>
        if v = 0 then
          ({ st0 with
              awaiting_content_blobs := usizeSub1 st0.awaiting_content_blobs,
              stats := { st0.stats with
                blobs_error := usizeAdd1 st0.stats.blobs_error } },
           false, [.giveUpBlob c.url])
        else
          let m' := if st0.rate_limited then st0.retry_map
                    else mapInsert st0.retry_map c.url (v - 1)
          ({ st0 with retry_map := m' },
           false, [.reenqueueBlob c])
    | none =>
        -- second `blobs_retried += 1` in the first-failure branch (line 511)
        ({ st0 with
            retry_map := mapInsert st0.retry_map c.url (usizeSub1 retries),
            stats := { st0.stats with
              blobs_retried := usizeAdd1 st0.stats.blobs_retried } },
         false, [.reenqueueBlob c])

/-- Run the `message_loop` over a list of iteration events, stopping at the
first `break`.  The Bool is true when the loop has exited. -/
def messageLoopRun (retries : Nat) (st : LoopState) :
    List LoopEvent → LoopState × Bool × List LoopAction
  | [] => (st, false, [])
  | e :: rest =>
    let r := messageLoopStep retries st e
    if r.2.1 then (r.1, true, r.2.2)
    else
      let r2 := messageLoopRun retries r.1 rest
      (r2.1, r2.2.1, r.2.2 ++ r2.2.2)

/-- Coordinator state after the seeding prologue of `message_loop`: every
seed page is pushed and `awaiting_content_types` incremented once per seed. -/
def initLoopState (urls : List (String × String)) : LoopState :=
  { awaiting_content_types := urls.foldl (fun n _ => usizeAdd1 n) 0,
    awaiting_content_blobs := 0,
    stats := {},
    rate_limited := false,
    retry_map := [] }

/-- True when the event is a failure report (on either error channel) for the
work unit with URL `u`. -/
def eventFailsFor (u : String) : LoopEvent → Bool
  | .pageError _ url => url == u
  | .blobFetchError c => c.url == u
  | _ => false

/-- Number of re-enqueues of URL `u` among the coordinator actions. -/
def countReEnqU (u : String) (acts : List LoopAction) : Nat :=
  acts.countP fun a =>
    match a with
    | .reenqueuePage _ url => url == u
    | .reenqueueBlob c => c.url == u
    | _ => false

/-- Number of give-up events for URL `u` among the coordinator actions. -/
def countGiveUpU (u : String) (acts : List LoopAction) : Nat :=
  acts.countP fun a =>
    match a with
    | .giveUpPage url => url == u
    | .giveUpBlob url => url == u
    | _ => false

/-- Result of running `message_loop` while tracking one URL: `ok` is false
when the event list was not realizable (a failure report arrived for `u`
while no copy of `u` was in flight), `infl` is the number of in-flight
copies of `u`, `reenq` / `giveups` count the coordinator re-enqueues and
give-ups for `u`. -/
structure TrackResult where
  ok : Bool
  fin : LoopState
  infl : Nat
  reenq : Nat
  giveups : Nat
deriving DecidableEq, Repr

/-- `messageLoopRun` instrumented for one URL `u`: a failure event for `u`
consumes one in-flight copy and each coordinator re-enqueue of `u` restores
one.  Tracking stops at the first loop exit or at the first unrealizable
failure event. -/
def trackUrl (retries : Nat) (u : String) (st : LoopState)
    (fl re gu : Nat) : List LoopEvent → TrackResult
  | [] => ⟨true, st, fl, re, gu⟩
  | e :: rest =>
    if eventFailsFor u e && fl == 0 then ⟨false, st, fl, re, gu⟩
    else if (messageLoopStep retries st e).2.1 then
      ⟨true, (messageLoopStep retries st e).1,
        fl - (if eventFailsFor u e then 1 else 0)
          + countReEnqU u (messageLoopStep retries st e).2.2,
        re + countReEnqU u (messageLoopStep retries st e).2.2,
        gu + countGiveUpU u (messageLoopStep retries st e).2.2⟩
    else
      trackUrl retries u (messageLoopStep retries st e).1
        (fl - (if eventFailsFor u e then 1 else 0)
          + countReEnqU u (messageLoopStep retries st e).2.2)
        (re + countReEnqU u (messageLoopStep retries st e).2.2)
        (gu + countGiveUpU u (messageLoopStep retries st e).2.2) rest

/-- The amended claim's proviso, computed along the run: every failure
report for URL `u` that the loop processes (before it exits) arrives while
no throttle backoff is active.  Throttle messages, backoff expiry, and
failures of other URLs may occur freely. -/
def failuresOutsideBackoff (retries : Nat) (u : String) (st : LoopState) :
    List LoopEvent → Bool
  | [] => true
  | e :: rest =>
    (!(eventFailsFor u e) || !st.rate_limited) &&
      (if (messageLoopStep retries st e).2.1 then true
       else failuresOutsideBackoff retries u (messageLoopStep retries st e).1 rest)

/-! ## Page-discovery stage (`api_connection.rs`) -/

/-- A JSON value as far as the page-discovery stage inspects it: the code
stringifies the value and strips surrounding quote characters, which
succeeds exactly on JSON strings (anything else panics on
`strip_prefix of a quote`). -/
inductive JVal where
  | str (s : String)
  | nonString (rendering : String)
deriving DecidableEq, Repr

/-- A JSON object, i.e. one element of a page body. -/
abbrev JObj : Type := List (String × JVal)

/-- `json_dict.contains_key(k)`. -/
def hasKey (d : JObj) (k : String) : Bool :=
  match mapLookup d k with
  | some _ => true
  | none => false

/-- `json_dict.get(k).unwrap().to_string().strip quotes`: `some s` for a
string value, `none` when the unwrap or the quote stripping would panic. -/
def jsonFieldString (d : JObj) (k : String) : Option String :=
  match mapLookup d k with
  | some (.str s) => some s
  | _ => none

/-- Emissions of one page-discovery task, in program order. -/
inductive PageEmission where
  | nextPage (content_type url : String)
  | feedFinished
  | blobPush (c : ContentToRetrieve)
  | foundBlob
  | pageErrorOut (content_type url : String)
deriving DecidableEq, Repr

def isPagingEmission : PageEmission → Bool
  | .nextPage _ _ => true
  | .feedFinished => true
  | _ => false

def isBlobEmission : PageEmission → Bool
  | .blobPush _ => true
  | .foundBlob => true
  | _ => false

/-- `api_connection::handle_blob_response_content_uris`: the emissions (in
order) produced from a decoded page body.  `none` models a panic on a
malformed object (missing or non-string `contentId` / `contentUri` /
`contentExpiration` where the code unwraps). -/
def contentUrisEmissions (content_type : String) (known_blobs : List (String × String))
    (duplicate : Nat) : List JObj → Option (List PageEmission)
  | [] => some []
  | json_dict :: rest =>
    if hasKey json_dict "contentUri" = false then
      -- warn and skip the object
      contentUrisEmissions content_type known_blobs duplicate rest
    else
      match jsonFieldString json_dict "contentId" with
      | none => none
      | some content_id =>
        match mapLookup known_blobs content_id with
        | some _ => contentUrisEmissions content_type known_blobs duplicate rest
        | none =>
          match jsonFieldString json_dict "contentUri" with
          | none => none
          | some url =>
            match jsonFieldString json_dict "contentExpiration" with
            | none => none
            | some expiration =>
              let c : ContentToRetrieve :=
                { expiration := expiration, content_type := content_type,
                  content_id := content_id, url := url }
              let sends :=
                if duplicate ≤ 1 then [PageEmission.blobPush c, PageEmission.foundBlob]
                else (List.replicate duplicate
                  [PageEmission.blobPush c, PageEmission.foundBlob]).flatten
              match contentUrisEmissions content_type known_blobs duplicate rest with
              | none => none
              | some ems => some (sends ++ ems)

/-- The blob references a trace pushes onto the blob queue (`content_tx`). -/
def pushesOfEmissions (l : List PageEmission) : List ContentToRetrieve :=
  l.filterMap fun e =>
    match e with
    | .blobPush c => some c
    | _ => none

/-- Blob references pushed from one decoded page body. -/
def handleBlobResponseContentUris (content_type : String)
    (known_blobs : List (String × String)) (duplicate : Nat)
    (content_json : List JObj) : Option (List ContentToRetrieve) :=
  (contentUrisEmissions content_type known_blobs duplicate content_json).map
    pushesOfEmissions

/-- Outcome of reading/decoding a successful page response body. -/
inductive BodyResult where
  | ok (objs : List JObj)
  | decodeError
  | textError
deriving Repr

/-- `api_connection::handle_blob_response` for a successful page fetch: the
paging decision (`handle_blob_response_paging`, which sends the next-page
URL or `FinishedContentBlobs`) runs FIRST, then the body is decoded and its
blob references emitted; on decode/text failure the page is routed to the
page-error channel. -/
def handleBlobResponseTrace (content_type url : String)
    (nextPageUri : Option String) (body : BodyResult)
    (known_blobs : List (String × String)) (duplicate : Nat) :
    Option (List PageEmission) :=
  let paging :=
    match nextPageUri with
    | some new_url => [PageEmission.nextPage content_type new_url]
    | none => [PageEmission.feedFinished]
  match body with
  | .ok objs =>
    match contentUrisEmissions content_type known_blobs duplicate objs with
    | none => none
    | some ems => some (paging ++ ems)
  | .decodeError => some (paging ++ [PageEmission.pageErrorOut content_type url])
  | .textError => some (paging ++ [PageEmission.pageErrorOut content_type url])

/-- Blob references pushed across a whole run of successfully decoded pages.
All pages consult the same `known_blobs` mapping: the stage receives one
clone of the store at spawn time (`collector::spawn_blob_collector`) and
never mutates it. -/
def pagesPushes (content_type : String) (known_blobs : List (String × String))
    (duplicate : Nat) : List (List JObj) → Option (List ContentToRetrieve)
  | [] => some []
  | page :: rest =>
    match handleBlobResponseContentUris content_type known_blobs duplicate page with
    | none => none
    | some l =>
      match pagesPushes content_type known_blobs duplicate rest with
      | none => none
      | some l2 => some (l ++ l2)

/-- Occurrences on one page of a well-formed blob reference with id `x`
(object has `contentUri` and its `contentId` is the string `x`). -/
def occurrencesOf (x : String) (objs : List JObj) : Nat :=
  objs.countP fun o => hasKey o "contentUri" && (jsonFieldString o "contentId" == some x)

/-- Occurrences of blob-id `x` across a list of pages. -/
def occurrencesOfPages (x : String) (pages : List (List JObj)) : Nat :=
  (pages.map (occurrencesOf x)).sum

/-- Number of pushed references carrying blob-id `x`. -/
def countId (x : String) (l : List ContentToRetrieve) : Nat :=
  l.countP fun c => c.content_id == x

/-- The ordering property claimed for a page trace: every blob emission
precedes every paging emission (Bool-valued, bounded quantifiers). -/
def blobBeforePagingB (l : List PageEmission) : Bool :=
  (List.range l.length).all fun i =>
    (List.range l.length).all fun j =>
      !(isBlobEmission (l.getD i .feedFinished)) ||
      !(isPagingEmission (l.getD j .feedFinished)) ||
      decide (i < j)

/-- The ordering property the trace actually satisfies: every paging
emission precedes every blob emission. -/
def pagingBeforeBlobB (l : List PageEmission) : Bool :=
  (List.range l.length).all fun i =>
    (List.range l.length).all fun j =>
      !(isBlobEmission (l.getD i .feedFinished)) ||
      !(isPagingEmission (l.getD j .feedFinished)) ||
      decide (j < i)

/-! ## Run planner (`config::Config::get_needed_runs`)

Timestamps are modelled in whole hours as integers relative to an arbitrary
epoch; `now` is the planner's `end_time = Utc::now()`.  RFC-3339 formatting
is injective on these instants and is elided. -/

/-- The `while end_time - start_time > 24h` loop of `get_needed_runs`, with
`hoursLeft = end_time - start_time`.  The loop body pushes the pair
`(formatted start_time, formatted END_TIME)` — the overall end, not the
computed `split_end_time` — and then advances `start_time` by 24 hours; the
trailing push emits the final pair. -/
def splitWindows (now : Int) (hoursLeft : Nat) : List (Int × Int) :=
  if h : 24 < hoursLeft then
    (now - hoursLeft, now) :: splitWindows now (hoursLeft - 24)
  else
    [(now - hoursLeft, now)]
termination_by hoursLeft
decreasing_by omega

/-- `get_needed_runs` for one enabled content type (every enabled content
type receives the identical window list): fatal (`none`) when
`hours_to_collect > 168`, otherwise the splitting loop from `now`. -/
def getNeededRuns (now : Int) (hours_to_collect : Nat) : Option (List (Int × Int)) :=
  if 168 < hours_to_collect then none
  else some (splitWindows now hours_to_collect)

/-! ## Known-blob store (`config.rs` load_known_content / save_known_content)

The on-disk file is modelled by its list of lines (`read_to_string` followed
by `lines()`); "same bytes modulo line order" becomes equality of the line
lists modulo permutation.  The RFC-3339 timestamp parser
(`NaiveDateTime::parse_from_str` with format `%Y-%m-%dT%H:%M:%S.%fZ`) is a
parameter `parse` mapping a string to an instant, `none` on parse failure;
`now` is `Utc::now()` at load time. -/

/-- Rust `str::trim` (restricted to ASCII whitespace). -/
def trimLeftChars : List Char → List Char
  | [] => []
  | c :: cs =>
    if c = ' ' ∨ c = '\t' ∨ c = '\n' ∨ c = '\r' then trimLeftChars cs else c :: cs

/-- Trim both ends of a string. -/
def rustTrim (s : String) : String :=
  ⟨(trimLeftChars (trimLeftChars s.data).reverse).reverse⟩

/-- Character-level `split_once(',')`. -/
def splitCharList : List Char → Option (List Char × List Char)
  | [] => none
  | c :: cs =>
    if c = ',' then some ([], cs)
    else
      match splitCharList cs with
      | some (a, b) => some (c :: a, b)
      | none => none

/-- Rust `str::split_once(',')`. -/
def splitOnceComma (s : String) : Option (String × String) :=
  match splitCharList s.data with
  | some (a, b) => some (⟨a⟩, ⟨b⟩)
  | none => none

/-- Processing of one line of the `known_blobs` file by
`Config::load_known_content`: skip blank lines and lines without a comma;
an entry whose expiration fails to parse, or parses to an instant not after
`now`, is invalidated; surviving entries are inserted with both fields
trimmed. -/
def loadLine (parse : String → Option Int) (now : Int)
    (known : List (String × String)) (line : String) : List (String × String) :=
  if (rustTrim line).data = [] then known
  else
    match splitOnceComma line with
    | none => known
    | some (id, creation_time) =>
      let invalidated :=
        match parse creation_time with
        | some t => decide (now ≥ t)
        | none => true
      if invalidated = false then mapInsert known (rustTrim id) (rustTrim creation_time)
      else known

/-- `Config::load_known_content`: a missing file (`none`) is the empty
mapping, otherwise fold the line processor over the file lines. -/
def loadKnownContent (parse : String → Option Int) (now : Int) :
    Option (List String) → List (String × String)
  | none => []
  | some fileLines => fileLines.foldl (loadLine parse now) []

/-- `Config::save_known_content`: one `id,expiration` line per mapping
entry. -/
def saveKnownContent (known : List (String × String)) : List String :=
  known.map fun p => p.1 ++ "," ++ p.2

/-- The lines of the original file that the claim says should survive a
load/save round trip: non-blank lines whose expiration component parses to
an instant strictly after `now` (purged entries are those with
`expiration ≤ now` or an unparseable expiration). -/
def survivesLineB (parse : String → Option Int) (now : Int) (line : String) : Bool :=
  if (rustTrim line).data = [] then false
  else
    match splitOnceComma line with
    | none => false
    | some (_, creation_time) =>
      match parse creation_time with
      | some t => decide (t > now)
      | none => false

/-- Original-file lines surviving the purge, in file order. -/
def survivingLines (parse : String → Option Int) (now : Int)
    (fileLines : List String) : List String :=
  fileLines.filter (survivesLineB parse now)

/-- The surviving `(id, expiration)` components, untrimmed, in file order. -/
def survivingEntries (parse : String → Option Int) (now : Int)
    (fileLines : List String) : List (String × String) :=
  fileLines.filterMap fun line =>
    if survivesLineB parse now line then splitOnceComma line else none

/-- Bool test for `l1` being a permutation of `l2` (same lines modulo
order): equal lengths and equal element counts. -/
def linesPermB (l1 l2 : List String) : Bool :=
  l1.length == l2.length && l1.all fun x => l1.count x == l2.count x

/-! ## Result processor (`collector::Collector`)

Log records (`ArbitraryJson`) are modelled as association lists of
string-valued fields, which is all the filter predicate and the `OriginFeed`
insertion inspect. -/

/-- A log record. -/
abbrev Rec : Type := List (String × String)

/-- `data_structures::Caches`. -/
structure Caches where
  general : List Rec := []
  aad : List Rec := []
  exchange : List Rec := []
  sharepoint : List Rec := []
  dlp : List Rec := []
  size : Nat := 0
deriving DecidableEq, Repr

/-- `Caches::new`. -/
def Caches.newC (size : Nat) : Caches := { size := size }

/-- Total number of cached records (the sum computed by `Caches::full`). -/
def Caches.total (c : Caches) : Nat :=
  c.general.length + c.aad.length + c.exchange.length +
  c.sharepoint.length + c.dlp.length

/-- `Caches::full`. -/
def Caches.fullC (c : Caches) : Bool := c.total ≥ c.size

/-- `Caches::insert`: route by content type; an unknown content type is only
logged (the record is dropped). -/
def Caches.insertC (c : Caches) (log : Rec) (content_type : String) : Caches :=
  if content_type = "Audit.General" then { c with general := c.general ++ [log] }
  else if content_type = "Audit.AzureActiveDirectory" then { c with aad := c.aad ++ [log] }
  else if content_type = "Audit.Exchange" then { c with exchange := c.exchange ++ [log] }
  else if content_type = "Audit.SharePoint" then { c with sharepoint := c.sharepoint ++ [log] }
  else if content_type = "DLP.All" then { c with dlp := c.dlp ++ [log] }
  else c

/-- The fields of `Collector` that the monitor loop mutates, plus the list
of batches handed to the sinks (each delivered batch goes to every
registered interface in order). -/
structure CollectorState where
  known_blobs : List (String × String)
  saved : Nat
  cache : Caches
  delivered : List Caches
deriving DecidableEq, Repr

/-- `Collector::output`: swap in a fresh cache of the same capacity and hand
the filled one to every interface. -/
def outputC (st : CollectorState) : CollectorState :=
  { st with
    cache := Caches.newC st.cache.size,
    delivered := st.delivered ++ [st.cache] }

/-- The filter test of `Collector::handle_log`: the record is dropped when
some configured `(key, required-value)` pair has `key` present in the record
with a different value. -/
def recPasses (filter : Rec) (log : Rec) : Bool :=
  filter.all fun kv =>
    match mapLookup log kv.1 with
    | some val => val == kv.2
    | none => true

/-- `Collector::handle_log`: filter, tag with `OriginFeed`, cache, and flush
to the sinks when the cache is full. -/
def handleLog (filters : List (String × Rec)) (st : CollectorState)
    (log : Rec) (content : ContentToRetrieve) : CollectorState :=
  let pass :=
    match mapLookup filters content.content_type with
    | some fl => recPasses fl log
    | none => true
  if pass = false then st
  else
    let log' := mapInsert log "OriginFeed" content.content_type
    let st' := { st with
        cache := st.cache.insertC log' content.content_type,
        saved := st.saved + 1 }
    if st'.cache.fullC then outputC st' else st'

/-- `Collector::handle_content`: record the blob as known, then process its
records; a body that fails to parse as a JSON list (`none`) is skipped. -/
def handleContent (filters : List (String × Rec)) (st : CollectorState)
    (msg : Option (List Rec) × ContentToRetrieve) : CollectorState :=
  let st1 := { st with
      known_blobs := mapInsert st.known_blobs msg.2.content_id msg.2.expiration }
  match msg.1 with
  | some logs => logs.foldl (fun s l => handleLog filters s l msg.2) st1
  | none => st1

/-- `Collector::monitor`: each loop iteration first polls `stats_rx`
(`check_stats`) and, when the final run-statistics message is available,
flushes the current cache and breaks; otherwise it processes one result
message (`check_results`).  After the loop the remaining result messages
are drained into the (fresh) cache (`check_all_results`) and the known-blob
store is saved (`end_run`) — the drained records are never flushed.
`resultsBefore` are the result messages processed before the statistics
message became available; `resultsAfter` are the messages still in the
result channel at that moment. -/
def monitorModel (filters : List (String × Rec)) (cacheSize : Nat)
    (known0 : List (String × String))
    (resultsBefore resultsAfter : List (Option (List Rec) × ContentToRetrieve)) :
    CollectorState :=
  let st0 : CollectorState :=
    { known_blobs := known0, saved := 0, cache := Caches.newC cacheSize,
      delivered := [] }
  let st1 := resultsBefore.foldl (handleContent filters) st0
  let st2 := outputC st1
  let st3 := resultsAfter.foldl (handleContent filters) st2
  st3

/-- Total number of records across all batches handed to the sinks. -/
def deliveredTotal (st : CollectorState) : Nat :=
  (st.delivered.map Caches.total).sum

/-! ## Concrete scenario data used by counterexamples and witnesses -/

/-- A well-formed page object with the three blob-reference fields. -/
def objOf (id uri exp : String) : JObj :=
  [("contentId", JVal.str id), ("contentUri", JVal.str uri),
   ("contentExpiration", JVal.str exp)]

def objB1 : JObj := objOf "b1" "u1" "e1"

def objB2 : JObj := objOf "b2" "u2" "e2"

/-- The blob reference built from `objB2`. -/
def cB2 : ContentToRetrieve :=
  { content_type := "Audit.Exchange", content_id := "b2",
    expiration := "e2", url := "u2" }

/-- A blob work unit with URL `uX`. -/
def cUX : ContentToRetrieve :=
  { content_type := "Audit.Exchange", content_id := "bX",
    expiration := "eX", url := "uX" }

/-- Three failures of `uX` processed while a throttle backoff is active. -/
def c4CounterEvents : List LoopEvent :=
  [.status .beingThrottled, .blobFetchError cUX, .blobFetchError cUX,
   .blobFetchError cUX]

/-- Three failures of `uX` with no throttling. -/
def c4WitnessEvents : List LoopEvent :=
  [.blobFetchError cUX, .blobFetchError cUX, .blobFetchError cUX]

/-- Scenario S3: one seed page, one found blob that fails twice and succeeds
on the third attempt. -/
def c9Events : List LoopEvent :=
  [.status .foundNewContentBlob, .status .finishedContentBlobs,
   .blobFetchError cUX, .blobFetchError cUX, .status .retrievedContentBlob]

/-- A successfully fetched blob whose body holds one record. -/
def cC3 : ContentToRetrieve :=
  { content_type := "Audit.Exchange", content_id := "b1",
    expiration := "e1", url := "u1" }

/-- A concrete timestamp parser for the known-blob store examples. -/
def parseC8 (s : String) : Option Int :=
  if s = "F" then some 100
  else if s = "G" then some 200
  else if s = "E" then some 50
  else if s = "E2" then some 60
  else none

/-- A coordinator state with one outstanding feed and one outstanding blob. -/
def stC7 : LoopState :=
  { awaiting_content_types := 1, awaiting_content_blobs := 1,
    stats := {}, rate_limited := false, retry_map := [] }

/-! ## Shared lemmas -/

theorem mapLookup_insert_self {β : Type} (m : List (String × β)) (k : String) (v : β) :
    mapLookup (mapInsert m k v) k = some v := by
  induction m with
  | nil => simp [mapInsert, mapLookup]
  | cons p rest ih =>
    by_cases h : p.1 = k
    · simp [mapInsert, mapLookup, h]
    · simp [mapInsert, mapLookup, h, ih]

theorem mapLookup_insert_ne {β : Type} (m : List (String × β)) (k u : String) (v : β)
    (h : k ≠ u) : mapLookup (mapInsert m k v) u = mapLookup m u := by
  induction m with
  | nil => simp [mapInsert, mapLookup, h]
  | cons p rest ih =>
    by_cases h2 : p.1 = k
    · simp [mapInsert, mapLookup, h2, h]
    · simp [mapInsert, mapLookup, h2, ih]

theorem usizeSub1_eq (x : Nat) (h1 : 0 < x) (h2 : x < USIZE) :
    usizeSub1 x = x - 1 := by
  unfold usizeSub1
  rw [if_neg (by omega)]

/-- Processing an iteration in which every channel poll came up empty never
exits the loop. -/
theorem idleRun_no_exit (retries : Nat) (n : Nat) :
    ∀ st : LoopState,
      (messageLoopRun retries st (List.replicate n LoopEvent.idle)).2.1 = false := by
  induction n with
  | zero => intro st; rfl
  | succ n ih =>
    intro st
    simp [List.replicate, messageLoopRun, messageLoopStep, ih st]

/-! ## Claims -/

/-- Claim C1 (code bug): the claim says the coordinator loop exits iff a kill
signal was received or both in-flight counters are zero, and in particular
that a run with an empty seed page list exits without processing any status
message.  In the code, `check_done` is evaluated only while processing a
`FinishedContentBlobs` / `RetrievedContentBlob` / `ErrorContentBlob` status
message, so a run with an empty seed list — whose counters are zero from the
start and whose event stream stays empty — never exits the loop, for any
number of iterations. -/
theorem C1_empty_seed_loop_never_exits :
    (initLoopState []).awaiting_content_types = 0 ∧
    (initLoopState []).awaiting_content_blobs = 0 ∧
    ∀ n : Nat,
      (messageLoopRun 3 (initLoopState [])
        (List.replicate n LoopEvent.idle)).2.1 = false :=
  ⟨rfl, rfl, fun n => idleRun_no_exit 3 n (initLoopState [])⟩

/-- Claim C2 (code bug): for a 48-hour window the planner emits the pairs
`(now - 48h, now)` and `(now - 24h, now)` — the loop pushes the overall
`end_time` instead of the computed `split_end_time` — so the first window
spans 48 hours (> 24) and the two windows overlap, contrary to the claim. -/
theorem C2_window_split_eval :
    getNeededRuns 0 48 = some [(-48, 0), (-24, 0)] ∧ (24 : Int) < 0 - (-48) := by
  refine ⟨?_, by norm_num⟩
  rw [getNeededRuns]
  norm_num
  rw [splitWindows]
  norm_num
  rw [splitWindows]
  norm_num

/-- Claim C3 (code bug): a result message still in the result channel when
the final run-statistics message arrives is drained into a fresh cache after
the final flush and is never delivered to any sink: here one record passes
the (empty) filter and is counted as saved, yet the total record count over
all delivered batches is zero and the record sits in the in-memory cache at
exit. -/
theorem C3_tail_results_not_delivered :
    deliveredTotal (monitorModel [] 500000 [] [] [(some [[("Id", "l1")]], cC3)]) = 0 ∧
    (monitorModel [] 500000 [] [] [(some [[("Id", "l1")]], cC3)]).cache.total = 1 ∧
    (monitorModel [] 500000 [] [] [(some [[("Id", "l1")]], cC3)]).saved = 1 ∧
    (monitorModel [] 500000 [] [] [(some [[("Id", "l1")]], cC3)]).delivered
      = [Caches.newC 500000] := by
  refine ⟨?_, ?_, ?_, ?_⟩ <;> rfl

/-- Claim C9 (code bug): for scenario S3 (`retries = 3`, one blob failing
twice then succeeding) the final statistics report `blobs_retried = 3`, not
2: the content-error branch increments `blobs_retried` once unconditionally
on receipt and a second time when creating the retry-map entry on the first
failure.  Found/successful/error match the claim and the loop exits. -/
theorem C9_retry_stats_eval :
    (messageLoopRun 3 (initLoopState [("Audit.Exchange", "p1")]) c9Events).1.stats
      = { blobs_found := 1, blobs_successful := 1, blobs_error := 0,
          blobs_retried := 3 } ∧
    (messageLoopRun 3 (initLoopState [("Audit.Exchange", "p1")]) c9Events).2.1
      = true := by
  refine ⟨?_, ?_⟩ <;> rfl

/-- Claim C7 counterexample: processing `RetrievedContentBlob` when
`awaiting_content_blobs` is zero does not saturate at zero — the plain
usize `-= 1` wraps to `USIZE - 1` (release build; a debug build panics). -/
theorem C7_saturating_counterexample :
    (messageLoopStep 3 (initLoopState [])
      (.status .retrievedContentBlob)).1.awaiting_content_blobs = USIZE - 1 ∧
    ((USIZE - 1) == 0) = false := by
  refine ⟨rfl, by decide⟩

/-- Claim C7 amended: only the `FinishedContentBlobs` decrement of
`awaiting_content_types` uses saturating subtraction; the decrements on
`RetrievedContentBlob`, `ErrorContentBlob` and both give-up branches use
plain usize subtraction, which decrements correctly only while the counter
is positive and wraps to `USIZE - 1` at zero. -/
theorem C7_saturating_amended (retries : Nat) (st : LoopState)
    (content_type u : String) (c : ContentToRetrieve)
    (hblobs : st.awaiting_content_blobs < USIZE)
    (htypes : st.awaiting_content_types < USIZE) :
    ((messageLoopStep retries st (.status .finishedContentBlobs)).1.awaiting_content_types
        = st.awaiting_content_types - 1)
    ∧ (0 < st.awaiting_content_blobs →
        (messageLoopStep retries st (.status .retrievedContentBlob)).1.awaiting_content_blobs
          = st.awaiting_content_blobs - 1)
    ∧ (0 < st.awaiting_content_blobs →
        (messageLoopStep retries st (.status .errorContentBlob)).1.awaiting_content_blobs
          = st.awaiting_content_blobs - 1)
    ∧ (st.awaiting_content_blobs = 0 →
        (messageLoopStep retries st (.status .retrievedContentBlob)).1.awaiting_content_blobs
          = USIZE - 1)
    ∧ (mapLookup st.retry_map u = some 0 → 0 < st.awaiting_content_types →
        (messageLoopStep retries st (.pageError content_type u)).1.awaiting_content_types
          = st.awaiting_content_types - 1)
    ∧ (mapLookup st.retry_map c.url = some 0 → 0 < st.awaiting_content_blobs →
        (messageLoopStep retries st (.blobFetchError c)).1.awaiting_content_blobs
          = st.awaiting_content_blobs - 1) := by
  refine ⟨?_, ?_, ?_, ?_, ?_, ?_⟩
  · simp only [messageLoopStep]
  · intro h
    simp only [messageLoopStep]
    split <;> simp [usizeSub1_eq _ h hblobs]
  · intro h
    simp only [messageLoopStep]
    split <;> simp [usizeSub1_eq _ h hblobs]
  · intro h
    simp only [messageLoopStep]
    split <;> simp [h, usizeSub1, USIZE]
  · intro hmap h
    simp only [messageLoopStep, hmap]
    simp [usizeSub1_eq _ h htypes]
  · intro hmap h
    simp only [messageLoopStep, hmap]
    simp [usizeSub1_eq _ h hblobs]

/-- Witness for C7: the amended statement instantiated at a state with one
outstanding feed and one outstanding blob. -/
theorem C7_saturating_witness :
    ((messageLoopStep 3 stC7 (.status .finishedContentBlobs)).1.awaiting_content_types
        = stC7.awaiting_content_types - 1)
    ∧ (0 < stC7.awaiting_content_blobs →
        (messageLoopStep 3 stC7 (.status .retrievedContentBlob)).1.awaiting_content_blobs
          = stC7.awaiting_content_blobs - 1)
    ∧ (0 < stC7.awaiting_content_blobs →
        (messageLoopStep 3 stC7 (.status .errorContentBlob)).1.awaiting_content_blobs
          = stC7.awaiting_content_blobs - 1)
    ∧ (stC7.awaiting_content_blobs = 0 →
        (messageLoopStep 3 stC7 (.status .retrievedContentBlob)).1.awaiting_content_blobs
          = USIZE - 1)
    ∧ (mapLookup stC7.retry_map "uX" = some 0 → 0 < stC7.awaiting_content_types →
        (messageLoopStep 3 stC7 (.pageError "Audit.Exchange" "uX")).1.awaiting_content_types
          = stC7.awaiting_content_types - 1)
    ∧ (mapLookup stC7.retry_map cUX.url = some 0 → 0 < stC7.awaiting_content_blobs →
        (messageLoopStep 3 stC7 (.blobFetchError cUX)).1.awaiting_content_blobs
          = stC7.awaiting_content_blobs - 1) :=
  C7_saturating_amended 3 stC7 "Audit.Exchange" "uX" cUX (by decide) (by decide)

/-- Claim C4 counterexample: with `retries = 2` and a throttle backoff
active, three admissible failures of the same URL produce three re-enqueues,
exceeding the claimed bound `retries`: while the backoff is active a failed
work unit is re-enqueued without decrementing its budget entry. -/
theorem C4_retry_budget_counterexample :
    (trackUrl 2 "uX" (initLoopState []) 1 0 0 c4CounterEvents).ok = true ∧
    (trackUrl 2 "uX" (initLoopState []) 1 0 0 c4CounterEvents).reenq = 3 ∧
    2 < (trackUrl 2 "uX" (initLoopState []) 1 0 0 c4CounterEvents).reenq := by
  refine ⟨rfl, rfl, ?_⟩
  have h : (trackUrl 2 "uX" (initLoopState []) 1 0 0 c4CounterEvents).reenq = 3 := rfl
  rw [h]
  omega

/-- Claim C10 counterexample: with `duplicate = 0` a page occurrence of an
unknown blob-id is pushed once (the code takes the `duplicate <= 1` branch),
not `duplicate` (= 0) times as the claim states. -/
theorem C10_duplicate_counterexample :
    pagesPushes "Audit.Exchange" [] 0 [[objB2]] = some [cB2] ∧
    countId "b2" [cB2] = 1 ∧
    0 * occurrencesOfPages "b2" [[objB2]] = 0 := by
  refine ⟨rfl, rfl, rfl⟩

/-- Claim C6 counterexample: for a successful page with no next page and one
unknown blob, the emission trace is `FeedFinished` first, then the blob push
and `FoundBlob` — `handle_blob_response` calls
`handle_blob_response_paging` before decoding the body, so the blob
emissions do not precede the feed-finished decision. -/
theorem C6_ordering_counterexample :
    handleBlobResponseTrace "Audit.Exchange" "p1" none (.ok [objB2]) [] 1
      = some [.feedFinished, .blobPush cB2, .foundBlob] ∧
    blobBeforePagingB [.feedFinished, .blobPush cB2, .foundBlob] = false := by
  refine ⟨rfl, by decide⟩

/-- Claim C8 counterexample: a file with two unexpired, parseable lines that
share the blob id `b1` loads into a single mapping entry (the later line
wins) and saves back as one line; neither original line was purged, so the
saved lines are not a permutation of the surviving original lines. -/
theorem C8_roundtrip_counterexample :
    saveKnownContent (loadKnownContent parseC8 0 (some ["b1,F", "b1,G"]))
      = ["b1,G"] ∧
    survivingLines parseC8 0 ["b1,F", "b1,G"] = ["b1,F", "b1,G"] ∧
    linesPermB
      (saveKnownContent (loadKnownContent parseC8 0 (some ["b1,F", "b1,G"])))
      (survivingLines parseC8 0 ["b1,F", "b1,G"]) = false := by
  refine ⟨rfl, rfl, rfl⟩

/-! ## Page-discovery lemmas -/

/-- Blob references among `n` repetitions of the per-push send pair. -/
theorem pushes_flatten_replicate (c0 : ContentToRetrieve) (n : Nat) :
    pushesOfEmissions
      ((List.replicate n [PageEmission.blobPush c0, PageEmission.foundBlob]).flatten)
      = List.replicate n c0 := by
  induction n with
  | zero => rfl
  | succ n ih =>
    rw [List.replicate_succ, List.flatten_cons, List.replicate_succ]
    unfold pushesOfEmissions at *
    rw [List.filterMap_append, ih]
    rfl

/-- The blob references among the sends of one accepted page object. -/
theorem pushes_sends (c0 : ContentToRetrieve) (dup : Nat) :
    pushesOfEmissions
      (if dup ≤ 1 then [PageEmission.blobPush c0, PageEmission.foundBlob]
       else (List.replicate dup
         [PageEmission.blobPush c0, PageEmission.foundBlob]).flatten)
      = List.replicate (max dup 1) c0 := by
  by_cases h : dup ≤ 1
  · rw [if_pos h]
    have hm : max dup 1 = 1 := by omega
    rw [hm]
    rfl
  · rw [if_neg h]
    have hm : max dup 1 = dup := by omega
    rw [hm, pushes_flatten_replicate]

/-- Every emission of `contentUrisEmissions` is a blob emission. -/
theorem contentUris_all_blob (ct : String) (known : List (String × String))
    (dup : Nat) :
    ∀ (objs : List JObj) (ems : List PageEmission),
      contentUrisEmissions ct known dup objs = some ems →
      ∀ e ∈ ems, isBlobEmission e = true := by
  intro objs
  induction objs with
  | nil =>
    intro ems h e he
    simp only [contentUrisEmissions, Option.some.injEq] at h
    subst h
    simp at he
  | cons obj rest ih =>
    intro ems h e he
    simp only [contentUrisEmissions] at h
    by_cases hKey : hasKey obj "contentUri" = false
    · rw [if_pos hKey] at h
      exact ih ems h e he
    · rw [if_neg hKey] at h
      cases hid : jsonFieldString obj "contentId" with
      | none => simp only [hid] at h; exact Option.noConfusion h
      | some id =>
        simp only [hid] at h
        cases hkn : mapLookup known id with
        | some e0 =>
          simp only [hkn] at h
          exact ih ems h e he
        | none =>
          simp only [hkn] at h
          cases hurl : jsonFieldString obj "contentUri" with
          | none => simp only [hurl] at h; exact Option.noConfusion h
          | some url =>
            simp only [hurl] at h
            cases hexp : jsonFieldString obj "contentExpiration" with
            | none => simp only [hexp] at h; exact Option.noConfusion h
            | some exp =>
              simp only [hexp] at h
              cases hrec : contentUrisEmissions ct known dup rest with
              | none => simp only [hrec] at h; exact Option.noConfusion h
              | some ems' =>
                simp only [hrec, Option.some.injEq] at h
                subst h
                rw [List.mem_append] at he
                rcases he with he | he
                · by_cases hd : dup ≤ 1
                  · rw [if_pos hd] at he
                    simp only [List.mem_cons, List.not_mem_nil, or_false] at he
                    rcases he with he | he <;> subst he <;> rfl
                  · rw [if_neg hd] at he
                    rw [List.mem_flatten] at he
                    obtain ⟨s, hs, hes⟩ := he
                    rw [List.mem_replicate] at hs
                    rw [hs.2] at hes
                    simp only [List.mem_cons, List.not_mem_nil, or_false] at hes
                    rcases hes with hes | hes <;> subst hes <;> rfl
                · exact ih ems' hrec e he

theorem countId_replicate_self (x : String) (c0 : ContentToRetrieve) (n : Nat)
    (h : c0.content_id = x) : countId x (List.replicate n c0) = n := by
  induction n with
  | zero => rfl
  | succ n ih =>
    rw [List.replicate_succ]
    unfold countId at *
    rw [List.countP_cons, ih]
    simp [h]

theorem countId_replicate_other (x : String) (c0 : ContentToRetrieve) (n : Nat)
    (h : c0.content_id ≠ x) : countId x (List.replicate n c0) = 0 := by
  induction n with
  | zero => rfl
  | succ n ih =>
    rw [List.replicate_succ]
    unfold countId at *
    rw [List.countP_cons, ih]
    simp [h]

theorem countId_append (x : String) (a b : List ContentToRetrieve) :
    countId x (a ++ b) = countId x a + countId x b := by
  unfold countId
  rw [List.countP_append]

theorem pushesOfEmissions_append (a b : List PageEmission) :
    pushesOfEmissions (a ++ b) = pushesOfEmissions a ++ pushesOfEmissions b := by
  unfold pushesOfEmissions
  rw [List.filterMap_append]

theorem occurrencesOf_cons_skip (x : String) (obj : JObj) (rest : List JObj)
    (h : (hasKey obj "contentUri" && (jsonFieldString obj "contentId" == some x)) = false) :
    occurrencesOf x (obj :: rest) = occurrencesOf x rest := by
  unfold occurrencesOf
  rw [List.countP_cons, h]
  rfl

theorem occurrencesOf_cons_hit (x : String) (obj : JObj) (rest : List JObj)
    (h : (hasKey obj "contentUri" && (jsonFieldString obj "contentId" == some x)) = true) :
    occurrencesOf x (obj :: rest) = occurrencesOf x rest + 1 := by
  unfold occurrencesOf
  rw [List.countP_cons, h]
  rfl

/-- Main counting lemma for one decoded page: an id absent from the
known-blob snapshot is pushed `max duplicate 1` times per well-formed
occurrence; an id present in the snapshot is never pushed. -/
theorem contentUris_countId (ct x : String) (known : List (String × String))
    (dup : Nat) :
    ∀ (objs : List JObj) (ems : List PageEmission),
      contentUrisEmissions ct known dup objs = some ems →
      (mapLookup known x = none →
        countId x (pushesOfEmissions ems) = (max dup 1) * occurrencesOf x objs) ∧
      (∀ ex, mapLookup known x = some ex →
        countId x (pushesOfEmissions ems) = 0) := by
  intro objs
  induction objs with
  | nil =>
    intro ems h
    simp only [contentUrisEmissions, Option.some.injEq] at h
    subst h
    exact ⟨fun _ => rfl, fun ex _ => rfl⟩
  | cons obj rest ih =>
    intro ems h
    simp only [contentUrisEmissions] at h
    by_cases hKey : hasKey obj "contentUri" = false
    · rw [if_pos hKey] at h
      obtain ⟨ih1, ih2⟩ := ih ems h
      have hocc := occurrencesOf_cons_skip x obj rest (by rw [hKey]; rfl)
      rw [hocc]
      exact ⟨ih1, ih2⟩
    · rw [if_neg hKey] at h
      have hKeyT : hasKey obj "contentUri" = true := by
        cases hk : hasKey obj "contentUri"
        · exact absurd hk hKey
        · rfl
      cases hid : jsonFieldString obj "contentId" with
      | none => simp only [hid] at h; exact Option.noConfusion h
      | some id =>
        simp only [hid] at h
        cases hkn : mapLookup known id with
        | some e0 =>
          simp only [hkn] at h
          obtain ⟨ih1, ih2⟩ := ih ems h
          constructor
          · intro hx
            have hix : id ≠ x := by
              intro hh
              rw [hh, hx] at hkn
              exact Option.noConfusion hkn
            have hocc := occurrencesOf_cons_skip x obj rest
              (by rw [hid]; simp [hix])
            rw [hocc]
            exact ih1 hx
          · exact ih2
        | none =>
          simp only [hkn] at h
          cases hurl : jsonFieldString obj "contentUri" with
          | none => simp only [hurl] at h; exact Option.noConfusion h
          | some url =>
            simp only [hurl] at h
            cases hexp : jsonFieldString obj "contentExpiration" with
            | none => simp only [hexp] at h; exact Option.noConfusion h
            | some exp =>
              simp only [hexp] at h
              cases hrec : contentUrisEmissions ct known dup rest with
              | none => simp only [hrec] at h; exact Option.noConfusion h
              | some ems' =>
                simp only [hrec, Option.some.injEq] at h
                subst h
                obtain ⟨ih1, ih2⟩ := ih ems' hrec
                rw [pushesOfEmissions_append,
                    pushes_sends
                      { expiration := exp, content_type := ct,
                        content_id := id, url := url } dup,
                    countId_append]
                constructor
                · intro hx
                  rw [ih1 hx]
                  by_cases hix : id = x
                  · rw [countId_replicate_self x _ _ hix]
                    have hocc := occurrencesOf_cons_hit x obj rest
                      (by rw [hKeyT, hid]; simp [hix])
                    rw [hocc, Nat.mul_add, Nat.mul_one]
                    omega
                  · rw [countId_replicate_other x _ _ hix]
                    have hocc := occurrencesOf_cons_skip x obj rest
                      (by rw [hid]; simp [hix])
                    rw [hocc]
                    omega
                · intro ex hx
                  rw [ih2 ex hx]
                  have hix : id ≠ x := by
                    intro hh
                    rw [hh, hx] at hkn
                    exact Option.noConfusion hkn
                  rw [countId_replicate_other x _ _ hix]

/-- Counting lemma lifted to a whole run of decoded pages (the stage holds
one immutable snapshot of the known-blob store across all pages). -/
theorem pagesPushes_countId (ct x : String) (known : List (String × String))
    (dup : Nat) :
    ∀ (pages : List (List JObj)) (l : List ContentToRetrieve),
      pagesPushes ct known dup pages = some l →
      (mapLookup known x = none →
        countId x l = (max dup 1) * occurrencesOfPages x pages) ∧
      (∀ ex, mapLookup known x = some ex → countId x l = 0) := by
  intro pages
  induction pages with
  | nil =>
    intro l h
    simp only [pagesPushes, Option.some.injEq] at h
    subst h
    exact ⟨fun _ => rfl, fun ex _ => rfl⟩
  | cons page rest ih =>
    intro l h
    simp only [pagesPushes] at h
    cases hp : handleBlobResponseContentUris ct known dup page with
    | none => simp only [hp] at h; exact Option.noConfusion h
    | some lp =>
      simp only [hp] at h
      cases hr : pagesPushes ct known dup rest with
      | none => simp only [hr] at h; exact Option.noConfusion h
      | some lrest =>
        simp only [hr, Option.some.injEq] at h
        subst h
        obtain ⟨ih1, ih2⟩ := ih lrest hr
        unfold handleBlobResponseContentUris at hp
        cases hems : contentUrisEmissions ct known dup page with
        | none => rw [hems] at hp; exact Option.noConfusion hp
        | some ems =>
          rw [hems] at hp
          simp only [Option.map_some', Option.some.injEq] at hp
          subst hp
          obtain ⟨hc1, hc2⟩ := contentUris_countId ct x known dup page ems hems
          rw [countId_append]
          constructor
          · intro hx
            rw [hc1 hx, ih1 hx]
            have : occurrencesOfPages x (page :: rest)
                = occurrencesOf x page + occurrencesOfPages x rest := by
              unfold occurrencesOfPages
              rw [List.map_cons, List.sum_cons]
            rw [this, Nat.mul_add]
          · intro ex hx
            rw [hc2 ex hx, ih2 ex hx]

/-- Claim C5 (confirmed): a blob-id present in the known-blob store at run
start is never pushed onto the blob queue by the page-discovery stage,
however many pages reference it and whatever the duplicate multiplier. -/
theorem C5_known_blob_filter (content_type x ex : String)
    (known : List (String × String)) (duplicate : Nat)
    (pages : List (List JObj)) (l : List ContentToRetrieve)
    (hx : mapLookup known x = some ex)
    (hl : pagesPushes content_type known duplicate pages = some l) :
    countId x l = 0 :=
  (pagesPushes_countId content_type x known duplicate pages l hl).2 ex hx

/-- Witness for C5: with `b1` preloaded in the store, a page listing `b1`
and `b2` pushes only `b2`. -/
theorem C5_known_blob_filter_witness : countId "b1" [cB2] = 0 :=
  C5_known_blob_filter "Audit.Exchange" "b1" "e1" [("b1", "e1")] 1
    [[objB1, objB2]] [cB2] rfl rfl

/-- Claim C10 amended: page discovery consults only the immutable
start-of-run snapshot of the known-blob store, so every well-formed page
occurrence of a blob-id absent from that snapshot is pushed onto the blob
queue `max duplicate 1` times (the code sends once when `duplicate <= 1`,
otherwise `duplicate` times), regardless of what was fetched earlier in the
same run. -/
theorem C10_duplicate_amended (content_type x : String)
    (known : List (String × String)) (duplicate : Nat)
    (pages : List (List JObj)) (l : List ContentToRetrieve)
    (hx : mapLookup known x = none)
    (hl : pagesPushes content_type known duplicate pages = some l) :
    countId x l = (max duplicate 1) * occurrencesOfPages x pages :=
  (pagesPushes_countId content_type x known duplicate pages l hl).1 hx

/-- Witness for C10: two occurrences of the unknown id `b2` with
`duplicate = 2` produce four pushes. -/
theorem C10_duplicate_witness :
    countId "b2" [cB2, cB2, cB2, cB2]
      = (max 2 1) * occurrencesOfPages "b2" [[objB2, objB2]] :=
  C10_duplicate_amended "Audit.Exchange" "b2" [] 2 [[objB2, objB2]]
    [cB2, cB2, cB2, cB2] rfl rfl

theorem blob_not_paging (e : PageEmission) (h : isBlobEmission e = true) :
    isPagingEmission e = false := by
  cases e <;> simp_all [isBlobEmission, isPagingEmission]

theorem getD_mem {α : Type} (l : List α) (n : Nat) (d : α) (h : n < l.length) :
    l.getD n d ∈ l := by
  induction l generalizing n with
  | nil => simp at h
  | cons a t ih =>
    cases n with
    | zero =>
      rw [List.getD_cons_zero]
      exact List.mem_cons_self a t
    | succ n =>
      rw [List.getD_cons_succ]
      exact List.mem_cons_of_mem a (ih n (by simpa using h))

/-- Structure of a page trace: a single paging decision first, then
emissions none of which is a paging emission. -/
theorem trace_decomposition (content_type url : String) (next : Option String)
    (body : BodyResult) (known : List (String × String)) (duplicate : Nat)
    (l : List PageEmission)
    (hl : handleBlobResponseTrace content_type url next body known duplicate
            = some l) :
    ∃ p rest, l = p :: rest ∧ isPagingEmission p = true ∧
      isBlobEmission p = false ∧ ∀ e ∈ rest, isPagingEmission e = false := by
  simp only [handleBlobResponseTrace] at hl
  cases body with
  | ok objs =>
    cases hems : contentUrisEmissions content_type known duplicate objs with
    | none => simp only [hems] at hl; exact Option.noConfusion hl
    | some ems =>
      simp only [hems] at hl
      have hall := contentUris_all_blob content_type known duplicate objs ems hems
      cases next with
      | some nu =>
        simp only [Option.some.injEq] at hl
        refine ⟨.nextPage content_type nu, ems, ?_, rfl, rfl, ?_⟩
        · rw [← hl]
          rfl
        · intro e he
          exact blob_not_paging e (hall e he)
      | none =>
        simp only [Option.some.injEq] at hl
        refine ⟨.feedFinished, ems, ?_, rfl, rfl, ?_⟩
        · rw [← hl]
          rfl
        · intro e he
          exact blob_not_paging e (hall e he)
  | decodeError =>
    cases next with
    | some nu =>
      simp only [Option.some.injEq] at hl
      refine ⟨.nextPage content_type nu, [.pageErrorOut content_type url],
        ?_, rfl, rfl, ?_⟩
      · rw [← hl]
        rfl
      · intro e he
        simp only [List.mem_cons, List.not_mem_nil, or_false] at he
        subst he
        rfl
    | none =>
      simp only [Option.some.injEq] at hl
      refine ⟨.feedFinished, [.pageErrorOut content_type url], ?_, rfl, rfl, ?_⟩
      · rw [← hl]
        rfl
      · intro e he
        simp only [List.mem_cons, List.not_mem_nil, or_false] at he
        subst he
        rfl
  | textError =>
    cases next with
    | some nu =>
      simp only [Option.some.injEq] at hl
      refine ⟨.nextPage content_type nu, [.pageErrorOut content_type url],
        ?_, rfl, rfl, ?_⟩
      · rw [← hl]
        rfl
      · intro e he
        simp only [List.mem_cons, List.not_mem_nil, or_false] at he
        subst he
        rfl
    | none =>
      simp only [Option.some.injEq] at hl
      refine ⟨.feedFinished, [.pageErrorOut content_type url], ?_, rfl, rfl, ?_⟩
      · rw [← hl]
        rfl
      · intro e he
        simp only [List.mem_cons, List.not_mem_nil, or_false] at he
        subst he
        rfl

/-- Claim C6 amended: within the processing of a single successfully fetched
page, the `FeedFinished` / next-page decision
(`handle_blob_response_paging`) is emitted BEFORE all `FoundBlob` emissions
and blob-queue pushes derived from the page body — the reverse of the
claimed order. -/
theorem C6_ordering_amended (content_type url : String) (next : Option String)
    (body : BodyResult) (known : List (String × String)) (duplicate : Nat)
    (l : List PageEmission)
    (hl : handleBlobResponseTrace content_type url next body known duplicate
            = some l) :
    pagingBeforeBlobB l = true := by
  obtain ⟨p, rest, hlp, hpag, hnb, hrest⟩ :=
    trace_decomposition content_type url next body known duplicate l hl
  subst hlp
  unfold pagingBeforeBlobB
  rw [List.all_eq_true]
  intro i hi
  rw [List.all_eq_true]
  intro j hj
  rw [List.mem_range] at hi hj
  by_cases hbi : isBlobEmission ((p :: rest).getD i .feedFinished) = true
  · by_cases hpj : isPagingEmission ((p :: rest).getD j .feedFinished) = true
    · have hj0 : j = 0 := by
        by_contra hj0
        obtain ⟨j', rfl⟩ : ∃ j', j = j' + 1 := ⟨j - 1, by omega⟩
        rw [List.getD_cons_succ] at hpj
        have hmem := getD_mem rest j' PageEmission.feedFinished
          (by simp at hj; omega)
        rw [hrest _ hmem] at hpj
        exact Bool.noConfusion hpj
      have hi0 : i ≠ 0 := by
        intro h0
        subst h0
        rw [List.getD_cons_zero] at hbi
        rw [hnb] at hbi
        exact Bool.noConfusion hbi
      have hlt : j < i := by omega
      rw [hbi, hpj]
      simp [hlt]
    · rw [Bool.not_eq_true] at hpj
      rw [hpj]
      simp
  · rw [Bool.not_eq_true] at hbi
    rw [hbi]
    simp

/-- Witness for C6: the amended ordering holds on the concrete page trace
with no next page and one unknown blob. -/
theorem C6_ordering_witness :
    pagingBeforeBlobB [.feedFinished, .blobPush cB2, .foundBlob] = true :=
  C6_ordering_amended "Audit.Exchange" "p1" none (.ok [objB2]) [] 1
    [.feedFinished, .blobPush cB2, .foundBlob] rfl

/-! ## Known-blob store round trip -/

theorem splitCharList_eq :
    ∀ (cl a b : List Char), splitCharList cl = some (a, b) → cl = a ++ ',' :: b := by
  intro cl
  induction cl with
  | nil => intro a b h; exact Option.noConfusion h
  | cons c cs ih =>
    intro a b h
    simp only [splitCharList] at h
    by_cases hc : c = ','
    · rw [if_pos hc] at h
      simp only [Option.some.injEq, Prod.mk.injEq] at h
      obtain ⟨ha, hb⟩ := h
      subst ha
      subst hb
      rw [hc]
      rfl
    · rw [if_neg hc] at h
      cases hs : splitCharList cs with
      | none => rw [hs] at h; exact Option.noConfusion h
      | some p =>
        obtain ⟨a', b'⟩ := p
        rw [hs] at h
        simp only [Option.some.injEq, Prod.mk.injEq] at h
        obtain ⟨ha, hb⟩ := h
        subst ha
        subst hb
        rw [List.cons_append]
        exact congrArg (List.cons c) (ih a' b' hs)

theorem splitOnceComma_eq (s i e : String) (h : splitOnceComma s = some (i, e)) :
    s = i ++ "," ++ e := by
  cases s with
  | mk data =>
    unfold splitOnceComma at h
    cases hs : splitCharList data with
    | none => rw [hs] at h; exact Option.noConfusion h
    | some p =>
      obtain ⟨a, b⟩ := p
      rw [hs] at h
      simp only [Option.some.injEq, Prod.mk.injEq] at h
      obtain ⟨hi, he⟩ := h
      subst hi
      subst he
      have hd := splitCharList_eq data a b hs
      rw [hd]
      show String.mk (a ++ ',' :: b) = String.mk ((a ++ [',']) ++ b)
      exact congrArg String.mk (by simp)

theorem mapInsert_fresh {β : Type} (m : List (String × β)) (k : String) (v : β)
    (h : mapLookup m k = none) : mapInsert m k v = m ++ [(k, v)] := by
  induction m with
  | nil => rfl
  | cons p rest ih =>
    obtain ⟨k2, v2⟩ := p
    by_cases hk : k2 = k
    · simp only [mapLookup, if_pos hk] at h
      exact Option.noConfusion h
    · simp only [mapLookup, if_neg hk] at h
      simp only [mapInsert, if_neg hk]
      rw [ih h]
      rfl

theorem mapLookup_append_none {β : Type} (m : List (String × β))
    (p : String × β) (k : String) (h1 : mapLookup m k = none) (h2 : p.1 ≠ k) :
    mapLookup (m ++ [p]) k = none := by
  induction m with
  | nil =>
    obtain ⟨k2, v2⟩ := p
    simp only [List.nil_append, mapLookup]
    simp only [ne_eq] at h2
    rw [if_neg h2]
  | cons q rest ih =>
    obtain ⟨k2, v2⟩ := q
    by_cases hk : k2 = k
    · simp only [mapLookup, if_pos hk] at h1
      exact Option.noConfusion h1
    · simp only [mapLookup, if_neg hk] at h1
      simp only [List.cons_append, mapLookup, if_neg hk]
      exact ih h1

theorem foldl_mapInsert_append {β : Type} :
    ∀ (entries acc : List (String × β)),
      (∀ p ∈ entries, mapLookup acc p.1 = none) →
      entries.Pairwise (fun p q => p.1 ≠ q.1) →
      entries.foldl (fun m p => mapInsert m p.1 p.2) acc = acc ++ entries := by
  intro entries
  induction entries with
  | nil => intro acc _ _; simp
  | cons p rest ih =>
    intro acc hfresh hdist
    rw [List.foldl_cons]
    rw [mapInsert_fresh acc p.1 p.2 (hfresh p (List.mem_cons_self p rest))]
    rw [List.pairwise_cons] at hdist
    have hfresh' : ∀ q ∈ rest, mapLookup (acc ++ [(p.1, p.2)]) q.1 = none := by
      intro q hq
      apply mapLookup_append_none
      · exact hfresh q (List.mem_cons_of_mem p hq)
      · exact hdist.1 q hq
    rw [ih (acc ++ [(p.1, p.2)]) hfresh' hdist.2]
    simp

theorem survivesLineB_split (parse : String → Option Int) (now : Int)
    (line : String) (h : survivesLineB parse now line = true) :
    ∃ i e, splitOnceComma line = some (i, e) := by
  unfold survivesLineB at h
  by_cases hb : (rustTrim line).data = []
  · rw [if_pos hb] at h
    exact Bool.noConfusion h
  · rw [if_neg hb] at h
    cases hs : splitOnceComma line with
    | none => rw [hs] at h; exact Bool.noConfusion h
    | some p =>
      obtain ⟨i, e⟩ := p
      exact ⟨i, e, rfl⟩

theorem loadLine_of_not_survives (parse : String → Option Int) (now : Int)
    (acc : List (String × String)) (line : String)
    (h : survivesLineB parse now line = false) :
    loadLine parse now acc line = acc := by
  unfold survivesLineB at h
  by_cases hb : (rustTrim line).data = []
  · simp [loadLine, hb]
  · rw [if_neg hb] at h
    cases hs : splitOnceComma line with
    | none => simp [loadLine, hb, hs]
    | some p =>
      obtain ⟨i, e⟩ := p
      simp only [hs] at h
      cases hp : parse e with
      | none => simp [loadLine, hb, hs, hp]
      | some t =>
        simp only [hp, decide_eq_false_iff_not, not_lt] at h
        have hd : decide (now ≥ t) = true := by
          simp only [decide_eq_true_eq, ge_iff_le]
          omega
        simp [loadLine, hb, hs, hp, hd]

theorem loadLine_of_survives (parse : String → Option Int) (now : Int)
    (acc : List (String × String)) (line i e : String)
    (h : survivesLineB parse now line = true)
    (hs : splitOnceComma line = some (i, e)) :
    loadLine parse now acc line = mapInsert acc (rustTrim i) (rustTrim e) := by
  unfold survivesLineB at h
  by_cases hb : (rustTrim line).data = []
  · rw [if_pos hb] at h
    exact Bool.noConfusion h
  · rw [if_neg hb] at h
    simp only [hs] at h
    cases hp : parse e with
    | none =>
      simp only [hp] at h
      exact Bool.noConfusion h
    | some t =>
      simp only [hp, decide_eq_true_eq] at h
      have hd : decide (now ≥ t) = false := by
        simp only [decide_eq_false_iff_not, ge_iff_le, not_le]
        omega
      simp [loadLine, hb, hs, hp, hd]

theorem survivingEntries_cons_skip (parse : String → Option Int) (now : Int)
    (line : String) (rest : List String)
    (h : survivesLineB parse now line = false) :
    survivingEntries parse now (line :: rest) = survivingEntries parse now rest := by
  unfold survivingEntries
  rw [List.filterMap_cons]
  rw [h]
  simp

theorem survivingEntries_cons_keep (parse : String → Option Int) (now : Int)
    (line : String) (rest : List String) (i e : String)
    (h : survivesLineB parse now line = true)
    (hs : splitOnceComma line = some (i, e)) :
    survivingEntries parse now (line :: rest)
      = (i, e) :: survivingEntries parse now rest := by
  unfold survivingEntries
  rw [List.filterMap_cons]
  rw [h]
  simp [hs]

theorem load_eq_entries (parse : String → Option Int) (now : Int) :
    ∀ (fileLines : List String) (acc : List (String × String)),
      fileLines.foldl (loadLine parse now) acc
        = ((survivingEntries parse now fileLines).map
            (fun p => (rustTrim p.1, rustTrim p.2))).foldl
            (fun m p => mapInsert m p.1 p.2) acc := by
  intro fileLines
  induction fileLines with
  | nil => intro acc; rfl
  | cons line rest ih =>
    intro acc
    rw [List.foldl_cons]
    cases hsv : survivesLineB parse now line with
    | false =>
      rw [loadLine_of_not_survives parse now acc line hsv,
          survivingEntries_cons_skip parse now line rest hsv]
      exact ih acc
    | true =>
      obtain ⟨i, e, hs⟩ := survivesLineB_split parse now line hsv
      rw [loadLine_of_survives parse now acc line i e hsv hs,
          survivingEntries_cons_keep parse now line rest i e hsv hs]
      rw [List.map_cons, List.foldl_cons]
      exact ih (mapInsert acc (rustTrim i) (rustTrim e))

theorem survivingLines_eq (parse : String → Option Int) (now : Int) :
    ∀ fileLines : List String,
      survivingLines parse now fileLines
        = (survivingEntries parse now fileLines).map (fun p => p.1 ++ "," ++ p.2) := by
  intro fileLines
  induction fileLines with
  | nil => rfl
  | cons line rest ih =>
    cases hsv : survivesLineB parse now line with
    | false =>
      rw [survivingEntries_cons_skip parse now line rest hsv]
      unfold survivingLines
      rw [List.filter_cons, hsv]
      simp only [Bool.false_eq_true, if_false]
      exact ih
    | true =>
      obtain ⟨i, e, hs⟩ := survivesLineB_split parse now line hsv
      rw [survivingEntries_cons_keep parse now line rest i e hsv hs]
      unfold survivingLines
      rw [List.filter_cons, hsv]
      simp only [if_true]
      rw [List.map_cons]
      have hline := splitOnceComma_eq line i e hs
      rw [← hline]
      exact congrArg (List.cons line) ih

/-- Claim C8 amended: loading then saving the known-blob store with no
intervening insertions yields the same lines modulo line order and modulo
purged entries (expiration not in the future, or unparseable), PROVIDED the
surviving lines carry pairwise-distinct blob ids and no whitespace padding
around id or expiration; lines sharing a blob id collapse to the last
occurrence (HashMap insert overwrites), and padded fields are re-written
trimmed.  A missing file loads as the empty mapping and saves as an empty
file. -/
theorem C8_roundtrip_amended (parse : String → Option Int) (now : Int)
    (fileLines : List String)
    (hdist : (survivingEntries parse now fileLines).Pairwise
      (fun p q => p.1 ≠ q.1))
    (htrim : ∀ p ∈ survivingEntries parse now fileLines,
      rustTrim p.1 = p.1 ∧ rustTrim p.2 = p.2) :
    saveKnownContent (loadKnownContent parse now (some fileLines))
      = survivingLines parse now fileLines ∧
    loadKnownContent parse now none = [] ∧
    saveKnownContent (loadKnownContent parse now none) = [] := by
  refine ⟨?_, rfl, rfl⟩
  have hE : (survivingEntries parse now fileLines).map
      (fun p => (rustTrim p.1, rustTrim p.2)) = survivingEntries parse now fileLines := by
    rw [List.map_congr_left (g := id) ?_, List.map_id]
    intro p hp
    obtain ⟨h1, h2⟩ := htrim p hp
    cases p with
    | mk a b =>
      simp only [id]
      simp only at h1 h2
      rw [h1, h2]
  have hload : loadKnownContent parse now (some fileLines)
      = survivingEntries parse now fileLines := by
    show fileLines.foldl (loadLine parse now) []
      = survivingEntries parse now fileLines
    rw [load_eq_entries, hE]
    rw [foldl_mapInsert_append _ [] (fun p _ => rfl) hdist]
    rfl
  rw [hload]
  unfold saveKnownContent
  rw [survivingLines_eq]

/-- Witness for C8: a two-line file with distinct, unpadded ids and
parseable future expirations round-trips exactly; a missing file loads as
the empty mapping and saves as an empty file. -/
theorem C8_roundtrip_witness :
    saveKnownContent (loadKnownContent parseC8 0 (some ["b1,E", "b2,E2"]))
      = survivingLines parseC8 0 ["b1,E", "b2,E2"] ∧
    loadKnownContent parseC8 0 none = [] ∧
    saveKnownContent (loadKnownContent parseC8 0 none) = [] :=
  C8_roundtrip_amended parseC8 0 ["b1,E", "b2,E2"] (by decide) (by decide)

/-! ## Retry-budget lemmas (message loop, one tracked URL) -/

theorem step_not_fail (retries : Nat) (u : String) (st : LoopState)
    (e : LoopEvent) (hf : eventFailsFor u e = false) :
    countReEnqU u (messageLoopStep retries st e).2.2 = 0 ∧
    countGiveUpU u (messageLoopStep retries st e).2.2 = 0 ∧
    mapLookup (messageLoopStep retries st e).1.retry_map u
      = mapLookup st.retry_map u := by
  cases e with
  | idle => exact ⟨rfl, rfl, rfl⟩
  | backoffExpired => exact ⟨rfl, rfl, rfl⟩
  | kill b =>
    cases b <;> exact ⟨rfl, rfl, rfl⟩
  | status m =>
    cases m with
    | foundNewContentBlob =>
      refine ⟨?_, ?_, ?_⟩ <;> simp [messageLoopStep, countReEnqU, countGiveUpU]
    | finishedContentBlobs =>
      refine ⟨?_, ?_, ?_⟩ <;> simp [messageLoopStep, countReEnqU, countGiveUpU]
    | retrievedContentBlob =>
      simp only [messageLoopStep]
      split <;> refine ⟨?_, ?_, ?_⟩ <;> simp [countReEnqU, countGiveUpU]
    | errorContentBlob =>
      simp only [messageLoopStep]
      split <;> refine ⟨?_, ?_, ?_⟩ <;> simp [countReEnqU, countGiveUpU]
    | beingThrottled =>
      simp only [messageLoopStep]
      split <;> refine ⟨?_, ?_, ?_⟩ <;> simp [countReEnqU, countGiveUpU]
  | pageError ct url =>
    have hu : (url == u) = false := by simpa [eventFailsFor] using hf
    have hu2 : url ≠ u := by simpa using hu
    cases hm : mapLookup st.retry_map url with
    | some v =>
      by_cases hv : v = 0
      · subst hv
        simp only [messageLoopStep, hm, eq_self_iff_true, if_true]
        refine ⟨?_, ?_, ?_⟩ <;> simp [countReEnqU, countGiveUpU, hu]
      · simp only [messageLoopStep, hm, if_neg hv]
        refine ⟨?_, ?_, ?_⟩
        · simp [countReEnqU, hu]
        · simp [countGiveUpU]
        · split
          · simp
          · simp [mapLookup_insert_ne st.retry_map url u (v - 1) hu2]
    | none =>
      simp only [messageLoopStep, hm]
      refine ⟨?_, ?_, ?_⟩
      · simp [countReEnqU, hu]
      · simp [countGiveUpU]
      · simp [mapLookup_insert_ne st.retry_map url u (usizeSub1 retries) hu2]
  | blobFetchError c =>
    have hu : (c.url == u) = false := by simpa [eventFailsFor] using hf
    have hu2 : c.url ≠ u := by simpa using hu
    cases hm : mapLookup st.retry_map c.url with
    | some v =>
      by_cases hv : v = 0
      · subst hv
        simp only [messageLoopStep, hm, eq_self_iff_true, if_true]
        refine ⟨?_, ?_, ?_⟩ <;> simp [countReEnqU, countGiveUpU, hu]
      · simp only [messageLoopStep, hm, if_neg hv]
        refine ⟨?_, ?_, ?_⟩
        · simp [countReEnqU, hu]
        · simp [countGiveUpU]
        · split
          · simp
          · simp [mapLookup_insert_ne st.retry_map c.url u (v - 1) hu2]
    | none =>
      simp only [messageLoopStep, hm]
      refine ⟨?_, ?_, ?_⟩
      · simp [countReEnqU, hu]
      · simp [countGiveUpU]
      · simp [mapLookup_insert_ne st.retry_map c.url u (usizeSub1 retries) hu2]

/-- A first failure of `u` (no retry-map entry): one re-enqueue, no
give-up, entry created at `retries - 1` (usize subtraction), no exit. -/
theorem step_fail_fresh (retries : Nat) (u : String) (st : LoopState)
    (e : LoopEvent) (hf : eventFailsFor u e = true)
    (hm : mapLookup st.retry_map u = none) :
    countReEnqU u (messageLoopStep retries st e).2.2 = 1 ∧
    countGiveUpU u (messageLoopStep retries st e).2.2 = 0 ∧
    mapLookup (messageLoopStep retries st e).1.retry_map u
      = some (usizeSub1 retries) ∧
    (messageLoopStep retries st e).2.1 = false := by
  cases e with
  | idle => simp [eventFailsFor] at hf
  | backoffExpired => simp [eventFailsFor] at hf
  | kill b => simp [eventFailsFor] at hf
  | status m => simp [eventFailsFor] at hf
  | pageError ct url =>
    have hu : url = u := by simpa [eventFailsFor] using hf
    subst hu
    simp only [messageLoopStep, hm]
    refine ⟨?_, ?_, ?_, trivial⟩
    · simp [countReEnqU]
    · simp [countGiveUpU]
    · simp [mapLookup_insert_self]
  | blobFetchError c =>
    have hu : c.url = u := by simpa [eventFailsFor] using hf
    simp only [messageLoopStep, hu, hm]
    refine ⟨?_, ?_, ?_, trivial⟩
    · simp [countReEnqU, hu]
    · simp [countGiveUpU]
    · simp [mapLookup_insert_self]

/-- A further failure of `u` with remaining budget, no backoff active: one
re-enqueue, no give-up, budget decremented, no exit. -/
theorem step_fail_pos (retries : Nat) (u : String) (st : LoopState)
    (e : LoopEvent) (v : Nat) (hf : eventFailsFor u e = true)
    (hm : mapLookup st.retry_map u = some v) (hv : v ≠ 0)
    (hrl : st.rate_limited = false) :
    countReEnqU u (messageLoopStep retries st e).2.2 = 1 ∧
    countGiveUpU u (messageLoopStep retries st e).2.2 = 0 ∧
    mapLookup (messageLoopStep retries st e).1.retry_map u = some (v - 1) ∧
    (messageLoopStep retries st e).2.1 = false := by
  cases e with
  | idle => simp [eventFailsFor] at hf
  | backoffExpired => simp [eventFailsFor] at hf
  | kill b => simp [eventFailsFor] at hf
  | status m => simp [eventFailsFor] at hf
  | pageError ct url =>
    have hu : url = u := by simpa [eventFailsFor] using hf
    subst hu
    simp only [messageLoopStep, hm, if_neg hv]
    refine ⟨?_, ?_, ?_, trivial⟩
    · simp [countReEnqU]
    · simp [countGiveUpU]
    · simp [hrl, mapLookup_insert_self]
  | blobFetchError c =>
    have hu : c.url = u := by simpa [eventFailsFor] using hf
    simp only [messageLoopStep, hu, hm, if_neg hv]
    refine ⟨?_, ?_, ?_, trivial⟩
    · simp [countReEnqU, hu]
    · simp [countGiveUpU]
    · simp [hrl, mapLookup_insert_self]

/-- A failure of `u` with exhausted budget: no re-enqueue, one give-up,
entry unchanged at 0, no exit. -/
theorem step_fail_zero (retries : Nat) (u : String) (st : LoopState)
    (e : LoopEvent) (hf : eventFailsFor u e = true)
    (hm : mapLookup st.retry_map u = some 0) :
    countReEnqU u (messageLoopStep retries st e).2.2 = 0 ∧
    countGiveUpU u (messageLoopStep retries st e).2.2 = 1 ∧
    mapLookup (messageLoopStep retries st e).1.retry_map u = some 0 ∧
    (messageLoopStep retries st e).2.1 = false := by
  cases e with
  | idle => simp [eventFailsFor] at hf
  | backoffExpired => simp [eventFailsFor] at hf
  | kill b => simp [eventFailsFor] at hf
  | status m => simp [eventFailsFor] at hf
  | pageError ct url =>
    have hu : url = u := by simpa [eventFailsFor] using hf
    subst hu
    simp only [messageLoopStep, hm, eq_self_iff_true, if_true]
    refine ⟨?_, ?_, trivial, trivial⟩
    · simp [countReEnqU]
    · simp [countGiveUpU]
  | blobFetchError c =>
    have hu : c.url = u := by simpa [eventFailsFor] using hf
    simp only [messageLoopStep, hu, hm, eq_self_iff_true, if_true]
    refine ⟨?_, ?_, trivial, trivial⟩
    · simp [countReEnqU, hu]
    · simp [countGiveUpU]

/-- No event other than `BeingThrottled` can start a backoff. -/
theorem step_rate_limited (retries : Nat) (st : LoopState) (e : LoopEvent)
    (hrl : st.rate_limited = false)
    (hne : e ≠ LoopEvent.status StatusMessage.beingThrottled) :
    (messageLoopStep retries st e).1.rate_limited = false := by
  cases e with
  | idle => exact hrl
  | backoffExpired => rfl
  | kill b => cases b <;> exact hrl
  | status m =>
    cases m with
    | foundNewContentBlob => exact hrl
    | finishedContentBlobs => exact hrl
    | retrievedContentBlob =>
      simp only [messageLoopStep]
      split <;> exact hrl
    | errorContentBlob =>
      simp only [messageLoopStep]
      split <;> exact hrl
    | beingThrottled => exact absurd rfl hne
  | pageError ct url =>
    cases hm : mapLookup st.retry_map url with
    | some v =>
      by_cases hv : v = 0
      · subst hv
        simp only [messageLoopStep, hm, eq_self_iff_true, if_true]
        exact hrl
      · simp only [messageLoopStep, hm, if_neg hv]
        exact hrl
    | none =>
      simp only [messageLoopStep, hm]
      exact hrl
  | blobFetchError c =>
    cases hm : mapLookup st.retry_map c.url with
    | some v =>
      by_cases hv : v = 0
      · subst hv
        simp only [messageLoopStep, hm, eq_self_iff_true, if_true]
        exact hrl
      · simp only [messageLoopStep, hm, if_neg hv]
        exact hrl
    | none =>
      simp only [messageLoopStep, hm]
      exact hrl

/-- Main retry-budget invariant: starting from a clean coordinator state,
as long as every failure of the tracked URL is processed while no throttle
backoff is active, the coordinator re-enqueues that URL at most `retries`
times and gives up on it at most once, over any realizable event
sequence. -/
theorem trackUrl_bounds (retries : Nat) (u : String)
    (h1 : 1 ≤ retries) (h2 : retries < USIZE) :
    ∀ (events : List LoopEvent) (st : LoopState) (fl re gu : Nat),
      failuresOutsideBackoff retries u st events = true →
      (∀ v, mapLookup st.retry_map u = some v → re + v ≤ retries) →
      (mapLookup st.retry_map u = none → re = 0) →
      gu + fl ≤ 1 →
      (trackUrl retries u st fl re gu events).reenq ≤ retries ∧
      (trackUrl retries u st fl re gu events).giveups ≤ 1 := by
  intro events
  induction events with
  | nil =>
    intro st fl re gu ht hinv hinv0 hgu
    have hre : re ≤ retries := by
      cases hm : mapLookup st.retry_map u with
      | none => have := hinv0 hm; omega
      | some v => have := hinv v hm; omega
    refine ⟨hre, ?_⟩
    show gu ≤ 1
    omega
  | cons e rest ih =>
    intro st fl re gu ht hinv hinv0 hgu
    simp only [failuresOutsideBackoff, Bool.and_eq_true] at ht
    obtain ⟨hA, hB⟩ := ht
    have hre : re ≤ retries := by
      cases hm : mapLookup st.retry_map u with
      | none => have := hinv0 hm; omega
      | some v => have := hinv v hm; omega
    simp only [trackUrl]
    by_cases hguard : (eventFailsFor u e && fl == 0) = true
    · rw [if_pos hguard]
      refine ⟨hre, ?_⟩
      show gu ≤ 1
      omega
    · rw [if_neg hguard]
      cases hf : eventFailsFor u e with
      | false =>
        obtain ⟨hc1, hc2, hc3⟩ := step_not_fail retries u st e hf
        rw [hc1, hc2]
        simp only [Bool.false_eq_true, if_false, Nat.add_zero, Nat.sub_zero]
        by_cases hex : (messageLoopStep retries st e).2.1 = true
        · rw [if_pos hex]
          refine ⟨hre, ?_⟩
          show gu ≤ 1
          omega
        · rw [if_neg hex]
          rw [if_neg hex] at hB
          refine ih (messageLoopStep retries st e).1 fl re gu hB ?_ ?_ hgu
          · intro v hv
            rw [hc3] at hv
            exact hinv v hv
          · intro hv
            rw [hc3] at hv
            exact hinv0 hv
      | true =>
        have hfl : fl ≠ 0 := by
          intro h0
          subst h0
          simp [hf] at hguard
        have hrlS : st.rate_limited = false := by
          rw [hf] at hA
          simpa using hA
        cases hm : mapLookup st.retry_map u with
        | none =>
          obtain ⟨hc1, hc2, hc3, hc4⟩ := step_fail_fresh retries u st e hf hm
          have hre0 : re = 0 := hinv0 hm
          rw [hc4] at hB
          simp only [Bool.false_eq_true, if_false] at hB
          rw [hc1, hc2, hc4]
          simp only [Bool.false_eq_true, if_false, Nat.add_zero]
          refine ih (messageLoopStep retries st e).1 (fl - 1 + 1) (re + 1) gu
            hB ?_ ?_ ?_
          · intro v hv
            rw [hc3] at hv
            have hveq : v = usizeSub1 retries := by
              exact (Option.some.injEq _ _ ▸ hv).symm
            rw [hveq, usizeSub1_eq retries (by omega) h2]
            omega
          · intro hv
            rw [hc3] at hv
            exact Option.noConfusion hv
          · omega
        | some v =>
          by_cases hv : v = 0
          · subst hv
            obtain ⟨hc1, hc2, hc3, hc4⟩ := step_fail_zero retries u st e hf hm
            have hrev := hinv 0 hm
            rw [hc4] at hB
            simp only [Bool.false_eq_true, if_false] at hB
            rw [hc1, hc2, hc4]
            simp only [Bool.false_eq_true, if_false, Nat.add_zero]
            refine ih (messageLoopStep retries st e).1 (fl - 1) re (gu + 1)
              hB ?_ ?_ ?_
            · intro v2 hv2
              rw [hc3] at hv2
              have hveq : v2 = 0 := by
                exact (Option.some.injEq _ _ ▸ hv2).symm
              rw [hveq]
              omega
            · intro hv2
              rw [hc3] at hv2
              exact Option.noConfusion hv2
            · omega
          · obtain ⟨hc1, hc2, hc3, hc4⟩ := step_fail_pos retries u st e v hf hm hv hrlS
            have hrev := hinv v hm
            rw [hc4] at hB
            simp only [Bool.false_eq_true, if_false] at hB
            rw [hc1, hc2, hc4]
            simp only [Bool.false_eq_true, if_false, Nat.add_zero]
            refine ih (messageLoopStep retries st e).1 (fl - 1 + 1) (re + 1) gu
              hB ?_ ?_ ?_
            · intro v2 hv2
              rw [hc3] at hv2
              have hveq : v2 = v - 1 := by
                exact (Option.some.injEq _ _ ▸ hv2).symm
              rw [hveq]
              omega
            · intro hv2
              rw [hc3] at hv2
              exact Option.noConfusion hv2
            · omega

/-- Claim C4 amended: for every URL (page or blob), provided `retries >= 1`
and no failure for that URL is processed while a throttle backoff is active
(throttle messages elsewhere in the run are allowed), the coordinator
re-enqueues the failed work unit at most `retries` times and — provided
failures only arrive for in-flight work, initially at most one copy — emits
at most one give-up event for it; moreover the retry-budget entry is
created at `retries - 1` on the first failure, decremented on each further
failure processed outside a backoff while positive, and at 0 the work unit
is abandoned with one give-up, no re-enqueue, and an unchanged entry.
During an active backoff, failed work is re-enqueued without decrementing
its budget, so re-enqueues can exceed `retries`. -/
theorem C4_retry_budget_amended (retries : Nat) (u : String)
    (urls : List (String × String)) (events : List LoopEvent) (fl0 : Nat)
    (h1 : 1 ≤ retries) (h2 : retries < USIZE) (hfl : fl0 ≤ 1)
    (ht : failuresOutsideBackoff retries u (initLoopState urls) events = true) :
    ((trackUrl retries u (initLoopState urls) fl0 0 0 events).reenq ≤ retries ∧
     (trackUrl retries u (initLoopState urls) fl0 0 0 events).giveups ≤ 1) ∧
    (∀ (st : LoopState) (e : LoopEvent), eventFailsFor u e = true →
      mapLookup st.retry_map u = none →
      mapLookup (messageLoopStep retries st e).1.retry_map u
        = some (retries - 1)) ∧
    (∀ (st : LoopState) (e : LoopEvent) (v : Nat), eventFailsFor u e = true →
      mapLookup st.retry_map u = some v → v ≠ 0 → st.rate_limited = false →
      mapLookup (messageLoopStep retries st e).1.retry_map u = some (v - 1)) ∧
    (∀ (st : LoopState) (e : LoopEvent), eventFailsFor u e = true →
      mapLookup st.retry_map u = some 0 →
      mapLookup (messageLoopStep retries st e).1.retry_map u = some 0 ∧
      countReEnqU u (messageLoopStep retries st e).2.2 = 0 ∧
      countGiveUpU u (messageLoopStep retries st e).2.2 = 1) := by
  refine ⟨?_, ?_, ?_, ?_⟩
  · refine trackUrl_bounds retries u h1 h2 events (initLoopState urls) fl0 0 0
      ht ?_ ?_ ?_
    · intro v hv
      exact Option.noConfusion hv
    · intro _
      rfl
    · omega
  · intro st0 e0 hf0 hm0
    have h := (step_fail_fresh retries u st0 e0 hf0 hm0).2.2.1
    rw [usizeSub1_eq retries (by omega) h2] at h
    exact h
  · intro st0 e0 v0 hf0 hm0 hv0 hrl0
    exact (step_fail_pos retries u st0 e0 v0 hf0 hm0 hv0 hrl0).2.2.1
  · intro st0 e0 hf0 hm0
    obtain ⟨ha, hb, hcm, _⟩ := step_fail_zero retries u st0 e0 hf0 hm0
    exact ⟨hcm, ha, hb⟩

/-- Witness for C4: three failures of `uX` with `retries = 2` and no backoff
active stay within the bounds (first failure creates the entry at 1, second
consumes it, third gives up). -/
theorem C4_retry_budget_witness :
    (((trackUrl 2 "uX" (initLoopState []) 1 0 0 c4WitnessEvents).reenq ≤ 2 ∧
      (trackUrl 2 "uX" (initLoopState []) 1 0 0 c4WitnessEvents).giveups ≤ 1) ∧
     (∀ (st : LoopState) (e : LoopEvent), eventFailsFor "uX" e = true →
       mapLookup st.retry_map "uX" = none →
       mapLookup (messageLoopStep 2 st e).1.retry_map "uX" = some (2 - 1)) ∧
     (∀ (st : LoopState) (e : LoopEvent) (v : Nat), eventFailsFor "uX" e = true →
       mapLookup st.retry_map "uX" = some v → v ≠ 0 → st.rate_limited = false →
       mapLookup (messageLoopStep 2 st e).1.retry_map "uX" = some (v - 1)) ∧
     (∀ (st : LoopState) (e : LoopEvent), eventFailsFor "uX" e = true →
       mapLookup st.retry_map "uX" = some 0 →
       mapLookup (messageLoopStep 2 st e).1.retry_map "uX" = some 0 ∧
       countReEnqU "uX" (messageLoopStep 2 st e).2.2 = 0 ∧
       countGiveUpU "uX" (messageLoopStep 2 st e).2.2 = 1)) :=
  C4_retry_budget_amended 2 "uX" [] c4WitnessEvents 1 (by decide) (by decide)
    (by decide) (by decide)

end OALC